import Mathlib

/-!
Shallow embedding of the Dozenal repository's core
(`src/dozenal/dozenal_decimal_converter.py` and `src/dozenal/dozenal_calc.py`).

Python's `decimal.Decimal` values are modelled as exact rationals (a value is
a rational whose reduced denominator divides a power of ten. Every arithmetic
operation of the `decimal` module rounds its mathematically exact result to the
ambient context precision (number of significant decimal digits) with
round-half-even, which is modelled by `roundSig`.  Machine floats are modelled
by the exact rational value of the IEEE-754 double.  Fallible code returns
`Except Err`.
-/

/-- Error kinds raised by the Python code (ValueError / TypeError /
decimal module signals / IndexError).  `outOfFuel` is an artefact of the
fuel-based recursion and is unreachable for the fuel values used. -/
inductive Err where
  | emptyInput
  | invalidDigit (c : Char)
  | invalidFormat
  | invalidNumber
  | unexpectedChar (c : Char)
  | mismatchedParens
  | incompleteExpression
  | malformedResult
  | unsupportedOperator
  | negativePrecision
  | divisionByZero
  | invalidOperation
  | indexError
  | outOfFuel
  deriving DecidableEq, Repr

instance {ε α : Type} [DecidableEq ε] [DecidableEq α] : DecidableEq (Except ε α) := fun a b =>
  match a, b with
  | .ok a, .ok b =>
      if h : a = b then .isTrue (by rw [h]) else .isFalse (fun hh => h (Except.ok.inj hh))
  | .ok _, .error _ => .isFalse (fun hh => Except.noConfusion hh)
  | .error _, .ok _ => .isFalse (fun hh => Except.noConfusion hh)
  | .error e, .error f =>
      if h : e = f then .isTrue (by rw [h]) else .isFalse (fun hh => h (Except.error.inj hh))

/-- The dozenal digit alphabet `_DOZENAL_DIGITS = "0123456789TE"`. -/
def DOZENAL_DIGITS : List Char :=
  ['0', '1', '2', '3', '4', '5', '6', '7', '8', '9', 'T', 'E']

/-- Value of a digit character: its index in the alphabet
(`_DOZENAL_DIGITS.index(ch)`). -/
def digVal (c : Char) : ℕ := DOZENAL_DIGITS.indexOf c

/-- Membership test `ch in _DOZENAL_DIGITS`. -/
def isDoz (c : Char) : Bool := DOZENAL_DIGITS.contains c

/-- Character for a digit value (`_DOZENAL_DIGITS[d]`, defined for `d < 12`). -/
def digChar (d : ℕ) : Char := DOZENAL_DIGITS.getD d '0'

/-! ### Model of `decimal.Decimal` context rounding -/

/-- Number of decimal digits of `n`, computed with explicit fuel
(`digCount10 f n` is correct whenever `n ≤ f`). -/
def digCount10 : ℕ → ℕ → ℕ
  | 0, _ => 0
  | f + 1, n => if n = 0 then 0 else digCount10 f (n / 10) + 1

/-- Number of decimal digits of `n` (0 for 0). -/
def numDigits (n : ℕ) : ℕ := digCount10 n n

/-- The decimal exponent of a positive rational: the unique `e` with
`10^e ≤ x < 10^(e+1)` (junk for `x ≤ 0`). -/
def decExp (x : ℚ) : ℤ :=
  let a := x.num.natAbs
  let b := x.den
  let da := numDigits a
  let db := numDigits b
  if b * 10 ^ da ≤ a * 10 ^ db then (da : ℤ) - db else (da : ℤ) - db - 1

/-- Round a rational to the nearest integer, ties to even
(the ROUND_HALF_EVEN rounding of the `decimal` module). -/
def roundHalfEvenQ (x : ℚ) : ℤ :=
  let n := ⌊x⌋
  let f := x - n
  if f < 1 / 2 then n
  else if 1 / 2 < f then n + 1
  else if n % 2 = 0 then n else n + 1

/-- Round a rational to `prec` significant decimal digits with
round-half-even: the result of every `decimal` arithmetic operation under a
context with `prec = prec`. -/
def roundSig (prec : ℕ) (x : ℚ) : ℚ :=
  if x = 0 then 0
  else
    let y := |x|
    let e := decExp y
    let s : ℤ := (prec : ℤ) - 1 - e
    let mag : ℚ :=
      if 0 ≤ s then
        (roundHalfEvenQ (y * ((10 ^ s.toNat : ℕ) : ℚ)) : ℚ) / ((10 ^ s.toNat : ℕ) : ℚ)
      else
        (roundHalfEvenQ (y / ((10 ^ (-s).toNat : ℕ) : ℚ)) : ℚ) * ((10 ^ (-s).toNat : ℕ) : ℚ)
    if x < 0 then -mag else mag

/-! ### `_int_to_base12` and `_int_from_base12` -/

/-- Digit-emitting loop of `_int_to_base12` (most significant digit first);
fuel-based, correct whenever `n ≤ f`. -/
def b12go : ℕ → ℕ → List Char
  | 0, _ => []
  | f + 1, n => if n = 0 then [] else b12go f (n / 12) ++ [digChar (n % 12)]

/-- `_int_to_base12(n)`: non-negative integer to base-12 digit string. -/
def int_to_base12 (n : ℕ) : String :=
  if n = 0 then "0" else ⟨b12go n n⟩

/-- Accumulator loop of `_int_from_base12`:
`total = total * 12 + _DOZENAL_DIGITS.index(ch)`, `ValueError` on a character
outside the alphabet. -/
def b12valGo (acc : ℕ) : List Char → Except Err ℕ
  | [] => .ok acc
  | c :: r => if isDoz c then b12valGo (acc * 12 + digVal c) r else .error (.invalidDigit c)

/-- `_int_from_base12(s)`: base-12 digit string (no sign) to natural number. -/
def int_from_base12 (l : List Char) : Except Err ℕ := b12valGo 0 l

/-! ### String helpers (`str.strip`, `str.upper`, `str.split(".")`) -/

/-- Leading-whitespace removal. -/
def lstrip (l : List Char) : List Char := l.dropWhile Char.isWhitespace

/-- Trailing-whitespace removal. -/
def rstrip (l : List Char) : List Char := (l.reverse.dropWhile Char.isWhitespace).reverse

/-- Python `str.strip()`. -/
def pyStrip (l : List Char) : List Char := lstrip (rstrip l)

/-- Python `str.upper()` (ASCII case mapping suffices for this code). -/
def pyUpper (l : List Char) : List Char := l.map Char.toUpper

/-- Number of `'.'` characters. -/
def countDot (l : List Char) : ℕ := l.count '.'

/-- Python `str.split(".")`. -/
def splitDot : List Char → List (List Char)
  | [] => [[]]
  | c :: r =>
    if c = '.' then [] :: splitDot r
    else
      match splitDot r with
      | [] => [[c]]
      | h :: t => (c :: h) :: t

/-! ### `dozenal_to_decimal` -/

/-- Fractional-part loop of `dozenal_to_decimal`: for each digit,
`power *= 12; frac_total += digit / power`, all operations rounded at the
ambient context precision `prec`; `ValueError` on an invalid digit. -/
def fracSumGo (prec : ℕ) (total power : ℚ) : List Char → Except Err ℚ
  | [] => .ok total
  | c :: r =>
    if isDoz c then
      let power' := roundSig prec (power * 12)
      let term := roundSig prec ((digVal c : ℚ) / power')
      fracSumGo prec (roundSig prec (total + term)) power' r
    else .error (.invalidDigit c)

/-- Lines 120-137 of `dozenal_to_decimal`: split on `.`, decode the parts
(`int_str = parts[0] or "0"` makes an empty integer part decode to 0, and
`int_from_base12` of an empty list is 0 already), apply the sign once. -/
def dozParts (prec : ℕ) (sgn : ℚ) (u : List Char) : Except Err ℚ :=
  match splitDot u with
  | [ip] => do
      let n ← int_from_base12 ip
      .ok (sgn * n)
  | [ip, fp] => do
      let n ← int_from_base12 ip
      let fr ← fracSumGo prec 0 1 fp
      .ok (sgn * roundSig prec ((n : ℚ) + fr))
  | _ => .error .invalidFormat

/-- `dozenal_to_decimal(s)` on a character list.  `prec` is the ambient
`decimal` context precision (28 unless a converter call changed it). -/
def dozCore (prec : ℕ) (l : List Char) : Except Err ℚ :=
  let t := pyUpper (pyStrip l)
  if t = [] then .error .emptyInput
  else if t.headD ' ' = '-' then dozParts prec (-1) t.tail
  else dozParts prec 1 t

/-- `dozenal_to_decimal` on a `String` argument. -/
def dozenal_to_decimal (prec : ℕ) (s : String) : Except Err ℚ := dozCore prec s.data

/-! ### `Fraction.limit_denominator` (CPython's continued-fraction algorithm) -/

/-- Continued-fraction loop of `Fraction.limit_denominator`; fuel-based (the
loop always breaks before the fuel `x.den + 1` used below runs out, because
the auxiliary denominators `q2` reach `x.den > maxd`). -/
def limDenGo (x : ℚ) (maxd : ℕ) : ℕ → ℤ → ℤ → ℤ → ℤ → ℤ → ℤ → ℚ
  | 0, _, _, _, _, _, _ => 0
  | f + 1, p0, q0, p1, q1, n, d =>
    let a := n.fdiv d
    let q2 := q0 + a * q1
    if (maxd : ℤ) < q2 then
      let k := ((maxd : ℤ) - q0).fdiv q1
      let bound1 : ℚ := ((p0 + k * p1 : ℤ) : ℚ) / ((q0 + k * q1 : ℤ) : ℚ)
      let bound2 : ℚ := (p1 : ℚ) / (q1 : ℚ)
      if |bound2 - x| ≤ |bound1 - x| then bound2 else bound1
    else limDenGo x maxd f p1 q1 (p0 + a * p1) q2 d (n - a * d)

/-- `Fraction(x).limit_denominator(maxd)`: the closest rational to `x` with
denominator at most `maxd`. -/
def limit_denominator (x : ℚ) (maxd : ℕ) : ℚ :=
  if x.den ≤ maxd then x else limDenGo x maxd (x.den + 1) 0 1 1 0 x.num (x.den : ℤ)

/-! ### `decimal_to_dozenal` -/

/-- Fractional digit loop of `decimal_to_dozenal` (lines 94-101): repeatedly
`frac *= 12; digit = int(frac // 1); append digit char; frac -= digit`,
stopping at remainder zero or after the fuel (the requested precision) is
exhausted; all arithmetic rounded at context precision `prec`.  Returns the
digit string together with the final remainder.  `_DOZENAL_DIGITS[digit]`
with `digit ≥ 12` is an `IndexError` (this can happen: rounding can push
`frac * 12` up to exactly 12). -/
def fracLoopFull (prec : ℕ) : ℕ → ℚ → Except Err (String × ℚ)
  | 0, fr => .ok ("", fr)
  | k + 1, fr =>
    let m := roundSig prec (fr * 12)
    let d : ℤ := ⌊m⌋
    if d < 0 ∨ 12 ≤ d then .error .indexError
    else
      let c := digChar d.toNat
      let fr' := roundSig prec (m - (d : ℚ))
      if fr' = 0 then .ok (String.singleton c, 0)
      else do
        let (rest, r) ← fracLoopFull prec k fr'
        .ok (String.singleton c ++ rest, r)

/-- Lines 85-102 of `decimal_to_dozenal`, shared by the float and Decimal
branches: sign, integer part, optional fractional digit loop.  The working
precision is `max(28, frac_precision * 3)` as set on lines 79/83.
`abs(dec)` on line 86 is a context operation of the `decimal` module and
rounds its result to the working precision, hence the `roundSig` around
the absolute value.  `int(dec // 1)` signals InvalidOperation when the
integer part needs more digits than the context precision. -/
def dozRender (p : ℤ) (x : ℚ) : Except Err String :=
  let prec := max 28 (3 * p).toNat
  let sign : String := if x < 0 then "-" else ""
  let dec := roundSig prec |x|
  let ip : ℕ := (⌊dec⌋).toNat
  if 10 ^ prec ≤ ip then .error .invalidOperation
  else
    let fr := roundSig prec (dec - (ip : ℚ))
    let idigits := int_to_base12 ip
    if p ≤ 0 ∨ fr = 0 then .ok (sign ++ idigits)
    else do
      let (ds, _) ← fracLoopFull prec p.toNat fr
      .ok (sign ++ idigits ++ "." ++ ds)

/-- `decimal_to_dozenal` on an `int` argument (lines 71-73): the precision
argument is never consulted. -/
def decimal_to_dozenal_int (n : ℤ) (_p : ℤ) : String :=
  (if n < 0 then "-" else "") ++ int_to_base12 n.natAbs

/-- `decimal_to_dozenal` on a `Decimal` argument (lines 81-102):
`Decimal(value)` construction is exact, then the shared rendering tail. -/
def decimal_to_dozenal_decimal (x : ℚ) (p : ℤ) : Except Err String :=
  dozRender p x

/-- `decimal_to_dozenal` on a `float` argument (lines 77-80 then the shared
tail): the float's exact rational value is re-approximated by
`Fraction(value).limit_denominator(10**9)` and divided out as a `Decimal`
at the working precision. -/
def decimal_to_dozenal_float (x : ℚ) (p : ℤ) : Except Err String :=
  let fr := limit_denominator x (10 ^ 9)
  let prec := max 28 (3 * p).toNat
  dozRender p (roundSig prec fr)

/-- Fractional digit production exactly as the specification words it
(spec §4.1): multiply the remaining fractional magnitude by 12, take the
integer part as the next digit, subtract it, stop at remainder exactly zero
or after `fracPrecision` digits, no rounding of the final digit.  This is
the exact-arithmetic counterpart of `fracLoopFull`. -/
def fracDigitsSpec : ℕ → ℚ → String
  | 0, _ => ""
  | k + 1, fr =>
    let m := fr * 12
    let d := ⌊m⌋
    let c := digChar d.toNat
    let fr' := m - (d : ℚ)
    if fr' = 0 then String.singleton c
    else String.singleton c ++ fracDigitsSpec k fr'

/-! ### `dozenal_calc.py`: tokenizer -/

/-- Raw token (kind, text) as produced by `_tokenize`. -/
inductive Tok where
  | number (s : String)
  | operator (c : Char)
  | lparen
  | rparen
  deriving DecidableEq, Repr

/-- `_parse_number(expression, start)`: optional sign, run of alphabet
digits, optional `.` and further digits; fails when no digit was seen.
Returns the token text and the remaining characters. -/
def parse_number (l : List Char) : Except Err (List Char × List Char) :=
  let sgnl1 : List Char × List Char :=
    match l with
    | c :: r => if c = '+' ∨ c = '-' then ([c], r) else ([], l)
    | [] => ([], [])
  let sgn := sgnl1.1
  let l1 := sgnl1.2
  let ds := l1.takeWhile isDoz
  let l2 := l1.dropWhile isDoz
  match l2 with
  | '.' :: r =>
    let fs := r.takeWhile isDoz
    let l3 := r.dropWhile isDoz
    if ds = [] ∧ fs = [] then .error .invalidNumber
    else .ok (sgn ++ ds ++ '.' :: fs, l3)
  | _ => if ds = [] then .error .invalidNumber else .ok (sgn ++ ds, l2)

/-- `_tokenize` main loop; `canStart` is the `can_start_number` flag.  The
fuel decreases once per iteration and each iteration consumes at least one
character, so fuel `length + 1` never runs out. -/
def tokenizeGo : ℕ → List Char → Bool → Except Err (List Tok)
  | 0, _, _ => .error .outOfFuel
  | _ + 1, [], _ => .ok []
  | f + 1, c :: rest, canStart =>
    if c.isWhitespace then tokenizeGo f rest canStart
    else if (c = '+' ∨ c = '-') ∧ canStart then
      match rest with
      | '(' :: _ => (tokenizeGo f rest true).map (fun ts => .number "0" :: .operator c :: ts)
      | _ => do
        let (tk, rest') ← parse_number (c :: rest)
        let ts ← tokenizeGo f rest' false
        .ok (.number ⟨tk⟩ :: ts)
    else if c = '+' ∨ c = '-' ∨ c = '*' ∨ c = '/' then
      (tokenizeGo f rest true).map (fun ts => .operator c :: ts)
    else if c = '(' then (tokenizeGo f rest true).map (fun ts => .lparen :: ts)
    else if c = ')' then (tokenizeGo f rest false).map (fun ts => .rparen :: ts)
    else if isDoz c then do
      let (tk, rest') ← parse_number (c :: rest)
      let ts ← tokenizeGo f rest' false
      .ok (.number ⟨tk⟩ :: ts)
    else .error (.unexpectedChar c)

/-- `_tokenize(expression)`. -/
def tokenize (l : List Char) : Except Err (List Tok) :=
  tokenizeGo (l.length + 1) l true

/-! ### Parser/evaluator -/

/-- Converted token: number tokens now carry their exact decimal value. -/
inductive CTok where
  | number (v : ℚ)
  | operator (c : Char)
  | lparen
  | rparen
  deriving DecidableEq, Repr

/-- `_convert_numbers`: each number token's text through
`dozenal_to_decimal` (at the ambient precision set by `calculate`). -/
def convertNumbers (prec : ℕ) : List Tok → Except Err (List CTok)
  | [] => .ok []
  | .number s :: r => do
      let v ← dozenal_to_decimal prec s
      let rest ← convertNumbers prec r
      .ok (.number v :: rest)
  | .operator c :: r => (convertNumbers prec r).map (fun ts => .operator c :: ts)
  | .lparen :: r => (convertNumbers prec r).map (fun ts => .lparen :: ts)
  | .rparen :: r => (convertNumbers prec r).map (fun ts => .rparen :: ts)

/-- `_PRECEDENCE`: `+`,`-` bind at 1; `*`,`/` at 2. -/
def prec_of (c : Char) : ℕ := if c = '+' ∨ c = '-' then 1 else 2

/-- Inner while loop of `_to_postfix` on an operator token: pop stack-top
operators of precedence ≥ the incoming operator's.  Returns (popped list in
pop order, remaining stack). -/
def popGE (o : Char) : List CTok → List CTok × List CTok
  | .operator t :: rest =>
    if prec_of o ≤ prec_of t then
      let pr := popGE o rest
      (.operator t :: pr.1, pr.2)
    else ([], .operator t :: rest)
  | st => ([], st)

/-- Right-paren loop of `_to_postfix`: pop to output until a `(` marker,
which is discarded; mismatched-parenthesis error when the stack empties. -/
def popToParen : List CTok → Except Err (List CTok × List CTok)
  | [] => .error .mismatchedParens
  | .lparen :: rest => .ok ([], rest)
  | t :: rest => do
      let (out, st) ← popToParen rest
      .ok (t :: out, st)

/-- End-of-input drain of `_to_postfix`: pop everything; a paren marker
still on the stack is a mismatched-parenthesis error. -/
def drainStack : List CTok → Except Err (List CTok)
  | [] => .ok []
  | .lparen :: _ => .error .mismatchedParens
  | .rparen :: _ => .error .mismatchedParens
  | t :: r => (drainStack r).map (fun out => t :: out)

/-- Main loop of `_to_postfix` over the token sequence, carrying the output
sequence and the operator stack. -/
def rpnGo : List CTok → List CTok → List CTok → Except Err (List CTok)
  | [], out, st => (drainStack st).map (fun popped => out ++ popped)
  | .number v :: r, out, st => rpnGo r (out ++ [.number v]) st
  | .operator c :: r, out, st =>
      let pr := popGE c st
      rpnGo r (out ++ pr.1) (.operator c :: pr.2)
  | .lparen :: r, out, st => rpnGo r out (.lparen :: st)
  | .rparen :: r, out, st => do
      let (popped, st') ← popToParen st
      rpnGo r (out ++ popped) st'

/-- `_to_postfix(tokens)`: shunting-yard infix-to-postfix rewrite. -/
def to_rpn (ts : List CTok) : Except Err (List CTok) := rpnGo ts [] []

/-- One operator application in `_evaluate_postfix`: exact decimal
arithmetic rounded at the context precision.  `Decimal` division by zero
raises DivisionByZero, except 0/0 which raises InvalidOperation. -/
def applyOp (prec : ℕ) (c : Char) (l r : ℚ) : Except Err ℚ :=
  if c = '+' then .ok (roundSig prec (l + r))
  else if c = '-' then .ok (roundSig prec (l - r))
  else if c = '*' then .ok (roundSig prec (l * r))
  else if c = '/' then
    if r = 0 then (if l = 0 then .error .invalidOperation else .error .divisionByZero)
    else .ok (roundSig prec (l / r))
  else .error .unsupportedOperator

/-- `_evaluate_postfix`: single stack, numbers push, any other token pops
the right then the left operand (incomplete-expression error when fewer than
two are available) and pushes the operator's result; at the end exactly one
value must remain. -/
def evalGo (prec : ℕ) : List CTok → List ℚ → Except Err ℚ
  | [], st =>
    match st with
    | [v] => .ok v
    | _ => .error .malformedResult
  | .number v :: r, st => evalGo prec r (v :: st)
  | t :: r, st =>
    match st with
    | right :: left :: rest =>
      match t with
      | .operator c => do
          let v ← applyOp prec c left right
          evalGo prec r (v :: rest)
      | _ => .error .unsupportedOperator
    | _ => .error .incompleteExpression

/-- `calculate(expression, frac_precision)`: strip/upper, empty and
negative-precision checks, context precision `max(28, frac_precision * 3)`,
then tokenize, convert, postfix rewrite, evaluate and render. -/
def calculate (s : String) (p : ℤ) : Except Err (ℚ × String) :=
  let e := pyUpper (pyStrip s.data)
  if e = [] then .error .emptyInput
  else if p < 0 then .error .negativePrecision
  else
    let prec := max 28 (3 * p).toNat
    do
      let ts ← tokenizeGo (e.length + 1) e true
      let cts ← convertNumbers prec ts
      let post ← to_rpn cts
      let v ← evalGo prec post []
      let dz ← dozRender p v
      .ok (v, dz)

/-! ### Helper lemmas: digit alphabet -/

lemma doz_char_facts :
    ∀ c ∈ DOZENAL_DIGITS,
      c.isWhitespace = false ∧ c.toUpper = c ∧ c ≠ '.' ∧ c ≠ '-' ∧ isDoz c = true := by
  decide

lemma digChar_facts : ∀ d, d < 12 → digChar d ∈ DOZENAL_DIGITS ∧ digVal (digChar d) = d := by
  decide

/-! ### Helper lemmas: `b12go` / `b12valGo` -/

lemma b12go_chars : ∀ (f n : ℕ), ∀ c ∈ b12go f n, c ∈ DOZENAL_DIGITS := by
  intro f
  induction f with
  | zero => intro n c hc; simp [b12go] at hc
  | succ f ih =>
    intro n c hc
    by_cases hn : n = 0
    · simp [b12go, hn] at hc
    · simp only [b12go, if_neg hn, List.mem_append, List.mem_singleton] at hc
      rcases hc with hc | hc
      · exact ih _ c hc
      · subst hc
        exact (digChar_facts (n % 12) (Nat.mod_lt _ (by norm_num))).1

lemma b12go_ne_nil {f n : ℕ} (h0 : 0 < n) (hf : n ≤ f) : b12go f n ≠ [] := by
  cases f with
  | zero => omega
  | succ f =>
    simp only [b12go, if_neg (Nat.pos_iff_ne_zero.mp h0)]
    simp

lemma b12valGo_append (acc : ℕ) (l1 l2 : List Char) :
    b12valGo acc (l1 ++ l2) =
      match b12valGo acc l1 with
      | .ok a => b12valGo a l2
      | .error e => .error e := by
  induction l1 generalizing acc with
  | nil => simp [b12valGo]
  | cons c r ih =>
    by_cases hc : isDoz c
    · simp [b12valGo, hc, ih]
    · simp [b12valGo, hc]

lemma b12_roundtrip_go : ∀ (f n acc : ℕ), n ≤ f →
    b12valGo acc (b12go f n) = .ok (acc * 12 ^ (b12go f n).length + n) := by
  intro f
  induction f with
  | zero =>
    intro n acc h
    have : n = 0 := Nat.le_zero.mp h
    subst this
    simp [b12go, b12valGo]
  | succ f ih =>
    intro n acc h
    by_cases hn : n = 0
    · subst hn; simp [b12go, b12valGo]
    · have hrec : n / 12 ≤ f := by
        have := Nat.div_lt_self (Nat.pos_iff_ne_zero.mpr hn) (by norm_num : 1 < 12)
        omega
      have hd := digChar_facts (n % 12) (Nat.mod_lt _ (by norm_num))
      simp only [b12go, if_neg hn, b12valGo_append, ih (n / 12) acc hrec]
      have hdoz : isDoz (digChar (n % 12)) = true := (doz_char_facts _ hd.1).2.2.2.2
      simp only [b12valGo, hdoz, if_pos, List.length_append, List.length_singleton]
      congr 1
      rw [hd.2]
      have : acc * 12 ^ ((b12go f (n / 12)).length + 1) =
          acc * 12 ^ (b12go f (n / 12)).length * 12 := by ring
      rw [this]
      have := Nat.div_add_mod n 12
      omega

lemma int_from_base12_to_base12 (n : ℕ) :
    int_from_base12 (int_to_base12 n).data = .ok n := by
  by_cases hn : n = 0
  · subst hn; rfl
  · have h := b12_roundtrip_go n n 0 le_rfl
    simp only [int_to_base12, if_neg hn, int_from_base12]
    simpa using h

/-! ### Helper lemmas: strip / upper / split -/

lemma dropWhile_id (p : Char → Bool) :
    ∀ l : List Char, (∀ c ∈ l, p c = false) → l.dropWhile p = l := by
  intro l h
  cases l with
  | nil => rfl
  | cons c r => simp [List.dropWhile_cons, h c (by simp)]

lemma pyStrip_id (l : List Char) (h : ∀ c ∈ l, c.isWhitespace = false) : pyStrip l = l := by
  unfold pyStrip rstrip lstrip
  rw [dropWhile_id _ _ (fun c hc => h c (List.mem_reverse.mp hc)), List.reverse_reverse,
    dropWhile_id _ _ h]

lemma pyUpper_id (l : List Char) (h : ∀ c ∈ l, c.toUpper = c) : pyUpper l = l := by
  unfold pyUpper
  induction l with
  | nil => rfl
  | cons c r ih =>
    simp only [List.map_cons, h c (by simp), List.cons.injEq, true_and]
    exact ih (fun x hx => h x (by simp [hx]))

lemma splitDot_no_dot : ∀ l : List Char, (∀ c ∈ l, c ≠ '.') → splitDot l = [l] := by
  intro l h
  induction l with
  | nil => rfl
  | cons c r ih =>
    simp only [splitDot, if_neg (h c (by simp))]
    rw [ih (fun x hx => h x (by simp [hx]))]

lemma int_to_base12_chars (m : ℕ) : ∀ c ∈ (int_to_base12 m).data, c ∈ DOZENAL_DIGITS := by
  intro c hc
  by_cases hm : m = 0
  · subst hm
    have h0 : (int_to_base12 0).data = ['0'] := rfl
    rw [h0] at hc
    simp at hc
    subst hc
    decide
  · simp only [int_to_base12, if_neg hm] at hc
    exact b12go_chars m m c hc

lemma int_to_base12_ne_nil (m : ℕ) : (int_to_base12 m).data ≠ [] := by
  by_cases hm : m = 0
  · subst hm; decide
  · simp only [int_to_base12, if_neg hm]
    exact b12go_ne_nil (Nat.pos_iff_ne_zero.mpr hm) le_rfl

lemma dozParts_digits (prec : ℕ) (sgn : ℚ) (l : List Char)
    (hdot : ∀ c ∈ l, c ≠ '.') (m : ℕ) (hval : int_from_base12 l = .ok m) :
    dozParts prec sgn l = .ok (sgn * m) := by
  simp only [dozParts, splitDot_no_dot _ hdot, hval]
  rfl

/-- Decoding a well-formed unsigned base-12 digit string: shared spine for
the round-trip facts. -/
lemma dozCore_digit_list (prec : ℕ) (l : List Char) (hl : l ≠ [])
    (hmem : ∀ c ∈ l, c ∈ DOZENAL_DIGITS) (m : ℕ) (hval : int_from_base12 l = .ok m) :
    dozCore prec l = .ok (m : ℚ) := by
  have hws : ∀ c ∈ l, c.isWhitespace = false := fun c hc => (doz_char_facts c (hmem c hc)).1
  have hup : ∀ c ∈ l, c.toUpper = c := fun c hc => (doz_char_facts c (hmem c hc)).2.1
  have hdot : ∀ c ∈ l, c ≠ '.' := fun c hc => (doz_char_facts c (hmem c hc)).2.2.1
  obtain ⟨c, r, rfl⟩ := List.exists_cons_of_ne_nil hl
  have hc' : c ≠ '-' := (doz_char_facts c (hmem c (by simp))).2.2.2.1
  simp only [dozCore]
  rw [pyStrip_id _ hws, pyUpper_id _ hup]
  rw [if_neg (by simp : ¬(c :: r = [])), if_neg (by rw [List.headD_cons]; exact hc'),
    dozParts_digits prec 1 _ hdot m hval, one_mul]

/-- Decoding a `'-'`-signed well-formed base-12 digit string. -/
lemma dozCore_neg_digit_list (prec : ℕ) (l : List Char)
    (hmem : ∀ c ∈ l, c ∈ DOZENAL_DIGITS) (m : ℕ) (hval : int_from_base12 l = .ok m) :
    dozCore prec ('-' :: l) = .ok (-(m : ℚ)) := by
  have hws : ∀ c ∈ '-' :: l, c.isWhitespace = false := by
    intro c hc
    rcases List.mem_cons.mp hc with h | h
    · subst h; decide
    · exact (doz_char_facts c (hmem c h)).1
  have hup : ∀ c ∈ '-' :: l, c.toUpper = c := by
    intro c hc
    rcases List.mem_cons.mp hc with h | h
    · subst h; decide
    · exact (doz_char_facts c (hmem c h)).2.1
  have hdot : ∀ c ∈ l, c ≠ '.' := fun c hc => (doz_char_facts c (hmem c hc)).2.2.1
  simp only [dozCore]
  rw [pyStrip_id _ hws, pyUpper_id _ hup]
  rw [if_neg (by simp : ¬('-' :: l = [])), if_pos (by rw [List.headD_cons]),
    List.tail_cons, dozParts_digits prec (-1) _ hdot m hval]
  congr 1
  ring

/-- Claim C1: integer round trip.  `decimal_to_dozenal` on an `int` ignores
the precision argument entirely, and `dozenal_to_decimal` recovers the
integer exactly, at any ambient context precision. -/
theorem c1_integer_round_trip (n p q : ℤ) (prec : ℕ) :
    decimal_to_dozenal_int n p = decimal_to_dozenal_int n q ∧
    dozenal_to_decimal prec (decimal_to_dozenal_int n p) = .ok (n : ℚ) := by
  refine ⟨rfl, ?_⟩
  unfold dozenal_to_decimal decimal_to_dozenal_int
  have hchars := int_to_base12_chars n.natAbs
  have hnil := int_to_base12_ne_nil n.natAbs
  have hval := int_from_base12_to_base12 n.natAbs
  by_cases hn : n < 0
  · rw [if_pos hn]
    have hdata : (("-" : String) ++ int_to_base12 n.natAbs).data =
        '-' :: (int_to_base12 n.natAbs).data := rfl
    rw [hdata, dozCore_neg_digit_list prec _ hchars n.natAbs hval]
    congr 1
    rw [Int.cast_natAbs, Int.cast_abs, abs_of_neg (show (n : ℚ) < 0 by exact_mod_cast hn)]
    ring
  · rw [if_neg hn]
    have hdata : (("" : String) ++ int_to_base12 n.natAbs).data =
        (int_to_base12 n.natAbs).data := by simp
    rw [hdata, dozCore_digit_list prec _ hnil hchars n.natAbs hval]
    congr 1
    rw [Int.cast_natAbs, Int.cast_abs]
    exact abs_of_nonneg (show (0 : ℚ) ≤ n by exact_mod_cast not_lt.mp hn)

/-- Claim C2: simple fractions fed in as binary floats come back as exact
terminating dozenal strings.  The three inputs are the exact rational values
of the Python floats `0.5`, `0.25` and `1/12` (the latter is the IEEE-754
double `6004799503160661 * 2^-56`). -/
theorem c2_exact_fractions :
    decimal_to_dozenal_float (1 / 2) 6 = .ok "0.6" ∧
    decimal_to_dozenal_float (1 / 4) 6 = .ok "0.3" ∧
    decimal_to_dozenal_float (6004799503160661 / 2 ^ 56) 6 = .ok "0.1" := by
  refine ⟨?_, ?_, ?_⟩
  · with_unfolding_all decide
  · with_unfolding_all decide
  · set_option maxRecDepth 100000 in with_unfolding_all decide

/-- Claim C6: at a number-start position, a sign immediately followed by
`(` is tokenized as the number `0` followed by the sign as a binary
operator, advancing one character; consequently `calculate("-(1+1)")`
yields decimal -2 and dozenal `"-2"`. -/
theorem c6_unary_sign_paren :
    (∀ (f : ℕ) (l : List Char) (c : Char), c = '+' ∨ c = '-' →
      tokenizeGo (f + 1) (c :: '(' :: l) true =
        (tokenizeGo f ('(' :: l) true).map (fun ts => .number "0" :: .operator c :: ts)) ∧
    calculate "-(1+1)" 12 = .ok (-2, "-2") := by
  constructor
  · intro f l c hc
    rcases hc with rfl | rfl <;> rfl
  · set_option maxRecDepth 100000 in with_unfolding_all decide

/-- Witness for C6 at a concrete sign, parenthesis and fuel. -/
theorem c6_unary_sign_paren_witness :
    tokenizeGo 4 ['-', '(', '1', ')'] true =
      (tokenizeGo 3 ['(', '1', ')'] true).map
        (fun ts => .number "0" :: .operator '-' :: ts) :=
  c6_unary_sign_paren.1 3 ['1', ')'] '-' (Or.inr rfl)

/-- Counterexample for claim C9 as stated: the expression `0/0` also applies
`/` with a zero right operand, but the `decimal` module raises
InvalidOperation there, not DivisionByZero. -/
theorem c9_zero_div_zero_counterexample :
    calculate "0/0" 12 = .error .invalidOperation ∧
    Err.invalidOperation ≠ Err.divisionByZero := by
  constructor
  · set_option maxRecDepth 100000 in with_unfolding_all decide
  · decide

/-- Claim C9 (amended): postfix evaluation of `/` with right operand zero
and a nonzero left operand raises DivisionByZero (for `0/0` the error is
InvalidOperation instead); `calculate("1/0")` propagates it and returns no
result. -/
theorem c9_division_by_zero :
    (∀ (precision : ℕ) (l r : ℚ), r = 0 → l ≠ 0 →
      applyOp precision '/' l r = .error .divisionByZero) ∧
    calculate "1/0" 12 = .error .divisionByZero := by
  constructor
  · intro precision l r hr hl
    subst hr
    simp [applyOp, hl]
  · set_option maxRecDepth 100000 in with_unfolding_all decide

/-- Witness for C9 at the division `1/0`. -/
theorem c9_division_by_zero_witness :
    applyOp 28 '/' 1 0 = .error .divisionByZero ∧
    calculate "1/0" 12 = .error .divisionByZero :=
  ⟨c9_division_by_zero.1 28 1 0 rfl one_ne_zero, c9_division_by_zero.2⟩

/-- Claim C3: `*` and `/` bind tighter than `+` and `-` and equal
precedence associates to the left.  On a three-operand expression the
shunting-yard rewrite keeps a strictly tighter second operator innermost,
pops an equal-or-higher first operator before pushing the second
(left-associative tie-break), and `calculate("1+2*3")` yields decimal 7 and
dozenal `"7"`. -/
theorem c3_operator_precedence :
    (∀ (a b c : ℚ) (o1 o2 : Char), prec_of o1 < prec_of o2 →
      to_rpn [.number a, .operator o1, .number b, .operator o2, .number c] =
        .ok [.number a, .number b, .number c, .operator o2, .operator o1]) ∧
    (∀ (a b c : ℚ) (o1 o2 : Char), prec_of o2 ≤ prec_of o1 →
      to_rpn [.number a, .operator o1, .number b, .operator o2, .number c] =
        .ok [.number a, .number b, .operator o1, .number c, .operator o2]) ∧
    calculate "1+2*3" 12 = .ok (7, "7") := by
  refine ⟨?_, ?_, ?_⟩
  · intro a b c o1 o2 h
    simp [to_rpn, rpnGo, popGE, drainStack, Except.map, if_neg (not_le.mpr h)]
  · intro a b c o1 o2 h
    simp [to_rpn, rpnGo, popGE, drainStack, Except.map, if_pos h]
  · set_option maxRecDepth 100000 in with_unfolding_all decide

/-- Witness for C3: tighter binding at `1+2*3`, left association at
`1-2-3`. -/
theorem c3_operator_precedence_witness :
    to_rpn [.number 1, .operator '+', .number 2, .operator '*', .number 3] =
      .ok [.number 1, .number 2, .number 3, .operator '*', .operator '+'] ∧
    to_rpn [.number 1, .operator '-', .number 2, .operator '-', .number 3] =
      .ok [.number 1, .number 2, .operator '-', .number 3, .operator '-'] :=
  ⟨c3_operator_precedence.1 1 2 3 '+' '*' (by decide),
   c3_operator_precedence.2.1 1 2 3 '-' '-' (by decide)⟩

/-! ### Error characterisation of the decoder (for C4 and C10) -/

lemma splitDot_ne_nil : ∀ l : List Char, splitDot l ≠ [] := by
  intro l
  cases l with
  | nil => simp [splitDot]
  | cons c r =>
    simp only [splitDot]
    by_cases hc : c = '.'
    · simp [hc]
    · rw [if_neg hc]
      cases h : splitDot r with
      | nil => simp
      | cons a t => simp

lemma splitDot_cons_ne_dot (c : Char) (l : List Char) (hc : c ≠ '.') :
    ∃ a t, splitDot l = a :: t ∧ splitDot (c :: l) = (c :: a) :: t := by
  cases h : splitDot l with
  | nil => exact absurd h (splitDot_ne_nil l)
  | cons a t =>
    refine ⟨a, t, rfl, ?_⟩
    simp [splitDot, if_neg hc, h]

lemma splitDot_length : ∀ l : List Char, (splitDot l).length = countDot l + 1 := by
  intro l
  induction l with
  | nil => simp [splitDot, countDot]
  | cons c r ih =>
    by_cases hc : c = '.'
    · subst hc
      have hcd : countDot ('.' :: r) = countDot r + 1 := by simp [countDot]
      simp [splitDot, List.length_cons, ih, hcd]
    · obtain ⟨a, t, h1, h2⟩ := splitDot_cons_ne_dot c r hc
      rw [h2, List.length_cons]
      rw [h1, List.length_cons] at ih
      have hcd : countDot (c :: r) = countDot r := by
        simp [countDot, List.count_cons, hc]
      omega

/-- Claim C10: a `'+'`-prefixed literal (as produced by the tokenizer at a
number-start position: no whitespace, already upper-case, at most one `.`)
always makes `dozenal_to_decimal` fail with an invalid-digit error on `'+'`,
because only a leading `'-'` is stripped; hence `calculate("+2")` and
`calculate("1*+2")` fail with that error while `calculate("1*-2")`
succeeds. -/
theorem c10_plus_literal :
    (∀ (precision : ℕ) (l : List Char),
      (∀ c ∈ l, c.isWhitespace = false ∧ c.toUpper = c) → countDot l ≤ 1 →
      dozenal_to_decimal precision ⟨'+' :: l⟩ = .error (.invalidDigit '+')) ∧
    calculate "+2" 12 = .error (.invalidDigit '+') ∧
    calculate "1*+2" 12 = .error (.invalidDigit '+') ∧
    calculate "1*-2" 12 = .ok (-2, "-2") := by
  refine ⟨?_, ?_, ?_, ?_⟩
  · intro precision l hc hdot
    have hws : ∀ c ∈ '+' :: l, c.isWhitespace = false := by
      intro c hmem
      rcases List.mem_cons.mp hmem with h | h
      · subst h; decide
      · exact (hc c h).1
    have hup : ∀ c ∈ '+' :: l, c.toUpper = c := by
      intro c hmem
      rcases List.mem_cons.mp hmem with h | h
      · subst h; decide
      · exact (hc c h).2
    show dozCore precision ('+' :: l) = .error (.invalidDigit '+')
    simp only [dozCore]
    rw [pyStrip_id _ hws, pyUpper_id _ hup,
      if_neg (by simp : ¬('+' :: l = [])),
      if_neg (by rw [List.headD_cons]; decide)]
    obtain ⟨a, t, hsp, hsp'⟩ := splitDot_cons_ne_dot '+' l (by decide)
    have hlen : (splitDot l).length = countDot l + 1 := splitDot_length l
    rw [hsp, List.length_cons] at hlen
    simp only [dozParts, hsp']
    match t, hlen with
    | [], _ => rfl
    | [b], _ => rfl
    | b :: b' :: t', hlen => simp at hlen; omega
  · set_option maxRecDepth 100000 in with_unfolding_all decide
  · set_option maxRecDepth 100000 in with_unfolding_all decide
  · set_option maxRecDepth 100000 in with_unfolding_all decide

/-- Witness for C10 at the literal `+2`. -/
theorem c10_plus_literal_witness :
    dozenal_to_decimal 28 ⟨['+', '2']⟩ = .error (.invalidDigit '+') ∧
    calculate "+2" 12 = .error (.invalidDigit '+') :=
  ⟨c10_plus_literal.1 28 ['2'] (by decide) (by decide), c10_plus_literal.2.1⟩

/-! ### Claim C4: when `dozenal_to_decimal` rejects its input -/

lemma doz_bind_ok {α β : Type} (a : α) (f : α → Except Err β) :
    (Except.ok a >>= f) = f a := rfl

lemma doz_bind_error {α β : Type} (e : Err) (f : α → Except Err β) :
    ((Except.error e : Except Err α) >>= f) = .error e := rfl

lemma b12valGo_error_iff : ∀ (l : List Char) (acc : ℕ),
    (∃ e, b12valGo acc l = .error e) ↔ ∃ c ∈ l, isDoz c = false := by
  intro l
  induction l with
  | nil => intro acc; simp [b12valGo]
  | cons c r ih =>
    intro acc
    by_cases hc : isDoz c
    · simp only [b12valGo, if_pos hc, ih, List.mem_cons]
      constructor
      · rintro ⟨x, hx, hdz⟩; exact ⟨x, Or.inr hx, hdz⟩
      · rintro ⟨x, hx | hx, hdz⟩
        · subst hx; exact absurd hc (by simp [hdz])
        · exact ⟨x, hx, hdz⟩
    · simp only [b12valGo, if_neg hc]
      constructor
      · intro _; exact ⟨c, by simp, by simpa using hc⟩
      · intro _; exact ⟨Err.invalidDigit c, rfl⟩

lemma fracSumGo_error_iff : ∀ (l : List Char) (prec : ℕ) (total power : ℚ),
    (∃ e, fracSumGo prec total power l = .error e) ↔ ∃ c ∈ l, isDoz c = false := by
  intro l
  induction l with
  | nil => intro prec total power; simp [fracSumGo]
  | cons c r ih =>
    intro prec total power
    by_cases hc : isDoz c
    · simp only [fracSumGo, if_pos hc, ih, List.mem_cons]
      constructor
      · rintro ⟨x, hx, hdz⟩; exact ⟨x, Or.inr hx, hdz⟩
      · rintro ⟨x, hx | hx, hdz⟩
        · subst hx; exact absurd hc (by simp [hdz])
        · exact ⟨x, hx, hdz⟩
    · simp only [fracSumGo, if_neg hc]
      constructor
      · intro _; exact ⟨c, by simp, by simpa using hc⟩
      · intro _; exact ⟨Err.invalidDigit c, rfl⟩

lemma splitDot_one : ∀ (l a : List Char), splitDot l = [a] → l = a := by
  intro l
  induction l with
  | nil =>
    intro a h
    simp only [splitDot] at h
    exact (List.cons.inj h).1
  | cons c r ih =>
    intro a h
    by_cases hc : c = '.'
    · subst hc
      simp only [splitDot, if_pos rfl] at h
      obtain ⟨h1, h2⟩ := List.cons.inj h
      exact absurd h2 (splitDot_ne_nil r)
    · obtain ⟨a', t, h1, h2⟩ := splitDot_cons_ne_dot c r hc
      rw [h2] at h
      obtain ⟨h3, h4⟩ := List.cons.inj h
      subst h4
      rw [← h3, ih a' h1]

lemma splitDot_two : ∀ (l a b : List Char), splitDot l = [a, b] → l = a ++ '.' :: b := by
  intro l
  induction l with
  | nil => intro a b h; simp [splitDot] at h
  | cons c r ih =>
    intro a b h
    by_cases hc : c = '.'
    · subst hc
      simp only [splitDot, if_pos rfl] at h
      obtain ⟨h1, h2⟩ := List.cons.inj h
      have h3 : r = b := splitDot_one r b (by rw [h2])
      rw [← h1, h3]
      simp
    · obtain ⟨a', t, h1, h2⟩ := splitDot_cons_ne_dot c r hc
      rw [h2] at h
      obtain ⟨h3, h4⟩ := List.cons.inj h
      have h5 : r = a' ++ '.' :: b := ih a' b (by rw [h1, h4])
      rw [← h3, h5]
      simp

lemma mem_split_invalid_iff (a b : List Char) (hda : '.' ∉ a) (hdb : '.' ∉ b) :
    (∃ c ∈ a ++ '.' :: b, c ≠ '.' ∧ isDoz c = false) ↔
      ((∃ c ∈ a, isDoz c = false) ∨ ∃ c ∈ b, isDoz c = false) := by
  constructor
  · rintro ⟨c, hc, hne, hdz⟩
    rcases List.mem_append.mp hc with h | h
    · exact Or.inl ⟨c, h, hdz⟩
    · rcases List.mem_cons.mp h with h | h
      · exact absurd h hne
      · exact Or.inr ⟨c, h, hdz⟩
  · rintro (⟨c, hc, hdz⟩ | ⟨c, hc, hdz⟩)
    · exact ⟨c, List.mem_append.mpr (Or.inl hc), fun h => hda (h ▸ hc), hdz⟩
    · exact ⟨c, List.mem_append.mpr (Or.inr (List.mem_cons_of_mem _ hc)),
        fun h => hdb (h ▸ hc), hdz⟩

lemma dozParts_error_iff (prec : ℕ) (sgn : ℚ) (u : List Char) :
    (∃ e, dozParts prec sgn u = .error e) ↔
      (2 ≤ countDot u ∨ ∃ c ∈ u, c ≠ '.' ∧ isDoz c = false) := by
  have hlen := splitDot_length u
  cases hsp : splitDot u with
  | nil => exact absurd hsp (splitDot_ne_nil u)
  | cons a t =>
    rw [hsp, List.length_cons] at hlen
    cases t with
    | nil =>
      have hu : u = a := splitDot_one u a hsp
      have hcd : countDot u = 0 := by simp at hlen; omega
      have hdot : '.' ∉ u := by
        rw [← List.count_eq_zero]
        exact hcd
      subst hu
      simp only [dozParts, hsp]
      cases hv : int_from_base12 u with
      | ok n =>
        simp only [hv, doz_bind_ok]
        constructor
        · rintro ⟨e, he⟩; exact absurd he (by simp)
        · rintro (h | ⟨c, hc, _, hdz⟩)
          · omega
          · have := (b12valGo_error_iff u 0).mpr ⟨c, hc, hdz⟩
            rw [show b12valGo 0 u = int_from_base12 u from rfl, hv] at this
            obtain ⟨e, he⟩ := this
            exact absurd he (by simp)
      | error e =>
        simp only [hv, doz_bind_error]
        have hiv := (b12valGo_error_iff u 0).mp
          ⟨e, by rw [show b12valGo 0 u = int_from_base12 u from rfl, hv]⟩
        obtain ⟨c, hc, hdz⟩ := hiv
        exact iff_of_true ⟨e, rfl⟩ (Or.inr ⟨c, hc, fun h => hdot (h ▸ hc), hdz⟩)
    | cons b t2 =>
      cases t2 with
      | nil =>
        have hu : u = a ++ '.' :: b := splitDot_two u a b hsp
        subst hu
        have hcd : countDot (a ++ '.' :: b) = 1 := by simp at hlen; omega
        have hsplit : countDot a + (countDot b + 1) = 1 := by
          have : countDot (a ++ '.' :: b) = countDot a + (countDot b + 1) := by
            simp [countDot, List.count_append]
          omega
        have hda : '.' ∉ a := by
          rw [← List.count_eq_zero]
          have : countDot a = 0 := by omega
          exact this
        have hdb : '.' ∉ b := by
          rw [← List.count_eq_zero]
          have : countDot b = 0 := by omega
          exact this
        simp only [dozParts, hsp]
        have hmem := mem_split_invalid_iff a b hda hdb
        have h2 : ¬(2 ≤ countDot (a ++ '.' :: b)) := by omega
        simp only [h2, false_or]
        cases hva : int_from_base12 a with
        | error e =>
          simp only [hva, doz_bind_error]
          have hiv := (b12valGo_error_iff a 0).mp
            ⟨e, by rw [show b12valGo 0 a = int_from_base12 a from rfl, hva]⟩
          obtain ⟨c, hc, hdz⟩ := hiv
          exact iff_of_true ⟨e, rfl⟩ (hmem.mpr (Or.inl ⟨c, hc, hdz⟩))
        | ok n =>
          simp only [hva, doz_bind_ok]
          cases hvb : fracSumGo prec 0 1 b with
          | error e =>
            simp only [hvb, doz_bind_error]
            have hiv := (fracSumGo_error_iff b prec 0 1).mp ⟨e, hvb⟩
            obtain ⟨c, hc, hdz⟩ := hiv
            exact iff_of_true ⟨e, rfl⟩ (hmem.mpr (Or.inr ⟨c, hc, hdz⟩))
          | ok fr =>
            simp only [hvb, doz_bind_ok]
            constructor
            · rintro ⟨e, he⟩; exact absurd he (by simp)
            · intro h
              rcases hmem.mp h with ⟨c, hc, hdz⟩ | ⟨c, hc, hdz⟩
              · have := (b12valGo_error_iff a 0).mpr ⟨c, hc, hdz⟩
                rw [show b12valGo 0 a = int_from_base12 a from rfl, hva] at this
                obtain ⟨e, he⟩ := this
                exact absurd he (by simp)
              · have := (fracSumGo_error_iff b prec 0 1).mpr ⟨c, hc, hdz⟩
                rw [hvb] at this
                obtain ⟨e, he⟩ := this
                exact absurd he (by simp)
      | cons d t3 =>
        simp only [dozParts, hsp]
        have : 2 ≤ countDot u := by
          simp only [List.length_cons] at hlen
          omega
        exact iff_of_true ⟨Err.invalidFormat, rfl⟩ (Or.inl this)

/-- Removal of one optional leading `-` sign. -/
def dropSign (t : List Char) : List Char :=
  if t.headD ' ' = '-' then t.tail else t

/-- Rejection condition of the claim, amended: the emptiness test happens on
the trimmed, case-folded string before the sign is removed (the lone string
`"-"` therefore decodes to 0 instead of failing). -/
def dozRejectAmended (s : String) : Prop :=
  pyUpper (pyStrip s.data) = [] ∨
  2 ≤ countDot (dropSign (pyUpper (pyStrip s.data))) ∨
  ∃ c ∈ dropSign (pyUpper (pyStrip s.data)), c ≠ '.' ∧ isDoz c = false

/-- Counterexample for claim C4 as stated: for the input `"-"` the string
becomes empty after removing the optional leading `-`, so the claim demands
an error, but the code checks emptiness before stripping the sign and
decodes `"-"` to 0. -/
theorem c4_counterexample : dozenal_to_decimal 28 "-" = .ok 0 := by
  with_unfolding_all decide

/-- Claim C4 (amended): `dozenal_to_decimal` raises an error if and only if
the trimmed, case-folded string is empty (before removing the sign), has
more than one `.`, or contains, outside one optional leading `-`, a
character that is neither `.` nor one of the 12 digit symbols; `"T"` and
`"E"` decode to 10 and 11, `"G"` is an invalid-digit error and `"1.2.3"` an
invalid-format error. -/
theorem c4_alphabet_and_format :
    (∀ (precision : ℕ) (s : String),
      (∃ e, dozenal_to_decimal precision s = .error e) ↔ dozRejectAmended s) ∧
    dozenal_to_decimal 28 "T" = .ok 10 ∧
    dozenal_to_decimal 28 "E" = .ok 11 ∧
    dozenal_to_decimal 28 "G" = .error (.invalidDigit 'G') ∧
    dozenal_to_decimal 28 "1.2.3" = .error .invalidFormat := by
  refine ⟨?_, ?_, ?_, ?_, ?_⟩
  · intro precision s
    unfold dozenal_to_decimal dozRejectAmended dozCore dropSign
    by_cases ht : pyUpper (pyStrip s.data) = []
    · simp only [ht, if_pos rfl]
      exact iff_of_true ⟨Err.emptyInput, rfl⟩ (by simp)
    · rw [if_neg ht]
      by_cases hh : (pyUpper (pyStrip s.data)).headD ' ' = '-'
      · rw [if_pos hh, if_pos hh]
        rw [dozParts_error_iff]
        simp [ht]
      · rw [if_neg hh, if_neg hh]
        rw [dozParts_error_iff]
        simp [ht]
  · with_unfolding_all decide
  · with_unfolding_all decide
  · with_unfolding_all decide
  · with_unfolding_all decide

/-! ### Claim C7: negative fractional precision -/

/-- Counterexample for claim C7 as stated: `decimal_to_dozenal` has no
negative-precision check at all; at precision -1 the non-integer value 0.5
is silently rendered as its bare integer part `"0"`. -/
theorem c7_counterexample : decimal_to_dozenal_decimal (1 / 2) (-1) = .ok "0" := by
  with_unfolding_all decide

/-- Claim C7 (amended): `calculate` rejects a negative precision with an
error whenever the expression is not blank (a blank expression reports
empty-input first), but `decimal_to_dozenal` performs no such check: any
`p ≤ 0` is treated like 0 and only the integer part of the context-rounded
absolute value is rendered. -/
theorem c7_negative_precision :
    (∀ (s : String) (p : ℤ), pyUpper (pyStrip s.data) ≠ [] → p < 0 →
      calculate s p = .error .negativePrecision) ∧
    (∀ (x : ℚ) (p : ℤ), p ≤ 0 → (⌊roundSig 28 |x|⌋).toNat < 10 ^ 28 →
      decimal_to_dozenal_decimal x p =
        .ok ((if x < 0 then "-" else "") ++
          int_to_base12 (⌊roundSig 28 |x|⌋).toNat)) := by
  constructor
  · intro s p hne hp
    unfold calculate
    rw [if_neg hne, if_pos hp]
  · intro x p hp hip
    unfold decimal_to_dozenal_decimal dozRender
    have h3 : (3 * p).toNat = 0 := Int.toNat_of_nonpos (by omega)
    rw [h3]
    simp only [Nat.max_self, max_eq_left (Nat.zero_le 28)]
    rw [if_neg (not_le.mpr hip), if_pos (Or.inl hp)]

/-- Witness for C7: a nonblank expression at precision -1, and the value
0.5 at precision -1. -/
theorem c7_negative_precision_witness :
    calculate "1" (-1) = .error .negativePrecision ∧
    decimal_to_dozenal_decimal (1 / 2) (-1) =
      .ok ((if (1 / 2 : ℚ) < 0 then "-" else "") ++
        int_to_base12 (⌊roundSig 28 |(1 / 2 : ℚ)|⌋).toNat) :=
  ⟨c7_negative_precision.1 "1" (-1) (by decide) (by decide),
   c7_negative_precision.2 (1 / 2) (-1) (by decide)
     (by with_unfolding_all decide)⟩

/-! ### Exact-arithmetic facts about the rounding model (for C5 and C8) -/

lemma digCount10_zero : ∀ f, digCount10 f 0 = 0 := by
  intro f
  cases f <;> simp [digCount10]

lemma digCount10_bounds : ∀ (f n : ℕ), 0 < n → n ≤ f →
    10 ^ (digCount10 f n - 1) ≤ n ∧ n < 10 ^ digCount10 f n := by
  intro f
  induction f with
  | zero => intro n h1 h2; omega
  | succ f ih =>
    intro n h1 h2
    have hne : n ≠ 0 := Nat.pos_iff_ne_zero.mp h1
    simp only [digCount10, if_neg hne]
    by_cases h10 : n < 10
    · have hz : n / 10 = 0 := Nat.div_eq_of_lt h10
      rw [hz, digCount10_zero]
      constructor
      · simpa using h1
      · simpa using h10
    · have hd1 : 0 < n / 10 := Nat.div_pos (le_of_not_lt h10) (by norm_num)
      have hd2 : n / 10 ≤ f := by
        have := Nat.div_lt_self h1 (by norm_num : 1 < 10)
        omega
      obtain ⟨hl, hr⟩ := ih (n / 10) hd1 hd2
      have hdpos : 1 ≤ digCount10 f (n / 10) := by
        by_contra hcon
        push_neg at hcon
        have h0 : digCount10 f (n / 10) = 0 := by omega
        rw [h0] at hr
        simp at hr
        omega
      have hmod := Nat.div_add_mod n 10
      have hmodlt : n % 10 < 10 := Nat.mod_lt _ (by norm_num)
      constructor
      · have hsplit : 10 ^ digCount10 f (n / 10) =
            10 * 10 ^ (digCount10 f (n / 10) - 1) := by
          conv_lhs => rw [show digCount10 f (n / 10) = (digCount10 f (n / 10) - 1) + 1 by omega]
          rw [pow_succ]
          ring
        calc 10 ^ (digCount10 f (n / 10) + 1 - 1) = 10 ^ digCount10 f (n / 10) := by
              norm_num
          _ = 10 * 10 ^ (digCount10 f (n / 10) - 1) := hsplit
          _ ≤ 10 * (n / 10) := Nat.mul_le_mul_left _ hl
          _ ≤ n := by omega
      · calc n < 10 * (n / 10 + 1) := by omega
          _ ≤ 10 * 10 ^ digCount10 f (n / 10) := Nat.mul_le_mul_left _ (by omega)
          _ = 10 ^ (digCount10 f (n / 10) + 1) := by rw [pow_succ]; ring

lemma numDigits_bounds (n : ℕ) (h : 0 < n) :
    10 ^ (numDigits n - 1) ≤ n ∧ n < 10 ^ numDigits n :=
  digCount10_bounds n n h le_rfl

lemma numDigits_pos (n : ℕ) (h : 0 < n) : 1 ≤ numDigits n := by
  by_contra hcon
  push_neg at hcon
  have h0 : numDigits n = 0 := by omega
  have := (numDigits_bounds n h).2
  rw [h0] at this
  simp at this
  omega

/-- Lower bound of `decExp`: `10 ^ decExp x ≤ x` for positive `x`. -/
lemma decExp_le (x : ℚ) (hx : 0 < x) : (10 : ℚ) ^ decExp x ≤ x := by
  have hnum : 0 < x.num := Rat.num_pos.mpr hx
  have hapos : 0 < x.num.natAbs := Int.natAbs_pos.mpr (ne_of_gt hnum)
  have hbpos : 0 < x.den := x.pos
  have hx_eq : x = ((x.num.natAbs : ℕ) : ℚ) / ((x.den : ℕ) : ℚ) := by
    have h1 : ((x.num.natAbs : ℕ) : ℚ) = (x.num : ℚ) := by
      rw [Int.cast_natAbs, Int.cast_abs]
      exact abs_of_pos (by exact_mod_cast hnum)
    rw [h1]
    exact (Rat.num_div_den x).symm
  obtain ⟨hal, har⟩ := numDigits_bounds x.num.natAbs hapos
  obtain ⟨hbl, hbr⟩ := numDigits_bounds x.den hbpos
  have hda1 : 1 ≤ numDigits x.num.natAbs := numDigits_pos _ hapos
  have hunf : decExp x =
      if x.den * 10 ^ numDigits x.num.natAbs ≤ x.num.natAbs * 10 ^ numDigits x.den then
        (numDigits x.num.natAbs : ℤ) - numDigits x.den
      else (numDigits x.num.natAbs : ℤ) - numDigits x.den - 1 := rfl
  rw [hunf]
  by_cases htest : x.den * 10 ^ numDigits x.num.natAbs ≤ x.num.natAbs * 10 ^ numDigits x.den
  · rw [if_pos htest]
    have key : (10 : ℚ) ^ ((numDigits x.num.natAbs : ℤ) - numDigits x.den) ≤
        ((x.num.natAbs : ℕ) : ℚ) / ((x.den : ℕ) : ℚ) := by
      rw [zpow_sub₀ (by norm_num : (10 : ℚ) ≠ 0), zpow_natCast, zpow_natCast]
      rw [div_le_div_iff₀ (by positivity) (by positivity)]
      calc (10 : ℚ) ^ numDigits x.num.natAbs * x.den
          = x.den * 10 ^ numDigits x.num.natAbs := by ring
        _ ≤ x.num.natAbs * 10 ^ numDigits x.den := by exact_mod_cast htest
    rw [← hx_eq] at key
    exact key
  · rw [if_neg htest]
    have h1 : (numDigits x.num.natAbs : ℤ) - numDigits x.den - 1 =
        ((numDigits x.num.natAbs - 1 : ℕ) : ℤ) - numDigits x.den := by
      omega
    rw [h1]
    have key : (10 : ℚ) ^ (((numDigits x.num.natAbs - 1 : ℕ) : ℤ) - numDigits x.den) ≤
        ((x.num.natAbs : ℕ) : ℚ) / ((x.den : ℕ) : ℚ) := by
      rw [zpow_sub₀ (by norm_num : (10 : ℚ) ≠ 0), zpow_natCast, zpow_natCast]
      rw [div_le_div_iff₀ (by positivity) (by positivity)]
      have h2 : 10 ^ (numDigits x.num.natAbs - 1) * x.den ≤
          x.num.natAbs * 10 ^ numDigits x.den :=
        Nat.mul_le_mul hal (le_of_lt hbr)
      exact_mod_cast h2
    rw [← hx_eq] at key
    exact key

lemma roundHalfEvenQ_natCast (m : ℕ) : roundHalfEvenQ ((m : ℕ) : ℚ) = m := by
  have h1 : ⌊((m : ℕ) : ℚ)⌋ = (m : ℤ) := Int.floor_natCast m
  have hunf : roundHalfEvenQ ((m : ℕ) : ℚ) =
      if ((m : ℕ) : ℚ) - (⌊((m : ℕ) : ℚ)⌋ : ℚ) < 1 / 2 then ⌊((m : ℕ) : ℚ)⌋
      else if 1 / 2 < ((m : ℕ) : ℚ) - (⌊((m : ℕ) : ℚ)⌋ : ℚ) then ⌊((m : ℕ) : ℚ)⌋ + 1
      else if ⌊((m : ℕ) : ℚ)⌋ % 2 = 0 then ⌊((m : ℕ) : ℚ)⌋ else ⌊((m : ℕ) : ℚ)⌋ + 1 := rfl
  rw [hunf, h1]
  have h2 : ((m : ℕ) : ℚ) - ((m : ℤ) : ℚ) = 0 := by push_cast; ring
  rw [h2]
  norm_num

/-- A nonnegative value with at most `prec` significant decimal digits is a
fixed point of the working-precision rounding. -/
lemma roundSig_eq_self (prec : ℕ) (a f : ℕ) (ha : a < 10 ^ prec) :
    roundSig prec ((a : ℚ) / ((10 ^ f : ℕ) : ℚ)) = (a : ℚ) / ((10 ^ f : ℕ) : ℚ) := by
  by_cases ha0 : a = 0
  · subst ha0; simp [roundSig]
  · have hapos : 0 < a := Nat.pos_iff_ne_zero.mpr ha0
    set x : ℚ := (a : ℚ) / ((10 ^ f : ℕ) : ℚ) with hxdef
    have hxpos : 0 < x := by
      rw [hxdef]
      positivity
    have habs : |x| = x := abs_of_pos hxpos
    have hxa : x * ((10 ^ f : ℕ) : ℚ) = a := by
      rw [hxdef]
      field_simp
    have hlow := decExp_le x hxpos
    have hexp : decExp x + (f : ℤ) ≤ (prec : ℤ) - 1 := by
      by_contra hcon
      push_neg at hcon
      have hb1 : (10 : ℚ) ^ (decExp x + (f : ℤ)) ≤ a := by
        rw [zpow_add₀ (by norm_num : (10 : ℚ) ≠ 0), zpow_natCast]
        calc (10 : ℚ) ^ decExp x * 10 ^ f ≤ x * 10 ^ f := by
              apply mul_le_mul_of_nonneg_right hlow
              positivity
          _ = a := by
              rw [← hxa]
              push_cast
              ring
      have hb2 : (10 : ℚ) ^ ((prec : ℕ) : ℤ) ≤ (10 : ℚ) ^ (decExp x + (f : ℤ)) := by
        apply zpow_le_zpow_right₀ (by norm_num : (1 : ℚ) ≤ 10)
        omega
      have hb3 : (a : ℚ) < (10 : ℚ) ^ ((prec : ℕ) : ℤ) := by
        rw [zpow_natCast]
        exact_mod_cast ha
      linarith
    have hs_nonneg : 0 ≤ (prec : ℤ) - 1 - decExp x := by omega
    have hsf : (f : ℤ) ≤ (prec : ℤ) - 1 - decExp x := by omega
    have hunf : roundSig prec x =
        if x = 0 then 0
        else
          if x < 0 then
            -(if 0 ≤ (prec : ℤ) - 1 - decExp |x| then
                (roundHalfEvenQ (|x| * ((10 ^ ((prec : ℤ) - 1 - decExp |x|).toNat : ℕ) : ℚ)) : ℚ) /
                  ((10 ^ ((prec : ℤ) - 1 - decExp |x|).toNat : ℕ) : ℚ)
              else
                (roundHalfEvenQ (|x| / ((10 ^ (-((prec : ℤ) - 1 - decExp |x|)).toNat : ℕ) : ℚ)) : ℚ) *
                  ((10 ^ (-((prec : ℤ) - 1 - decExp |x|)).toNat : ℕ) : ℚ))
          else
            (if 0 ≤ (prec : ℤ) - 1 - decExp |x| then
                (roundHalfEvenQ (|x| * ((10 ^ ((prec : ℤ) - 1 - decExp |x|).toNat : ℕ) : ℚ)) : ℚ) /
                  ((10 ^ ((prec : ℤ) - 1 - decExp |x|).toNat : ℕ) : ℚ)
              else
                (roundHalfEvenQ (|x| / ((10 ^ (-((prec : ℤ) - 1 - decExp |x|)).toNat : ℕ) : ℚ)) : ℚ) *
                  ((10 ^ (-((prec : ℤ) - 1 - decExp |x|)).toNat : ℕ) : ℚ)) := rfl
    rw [hunf, if_neg (ne_of_gt hxpos), if_neg (not_lt.mpr hxpos.le), habs,
      if_pos hs_nonneg]
    set s : ℤ := (prec : ℤ) - 1 - decExp x with hsdef
    obtain ⟨k, hk⟩ : ∃ k, s.toNat = f + k := ⟨s.toNat - f, by omega⟩
    have hscale : x * ((10 ^ s.toNat : ℕ) : ℚ) = ((a * 10 ^ k : ℕ) : ℚ) := by
      rw [hk, hxdef]
      push_cast
      rw [pow_add]
      field_simp
      ring
    rw [hscale, roundHalfEvenQ_natCast, hxdef]
    push_cast
    rw [div_eq_div_iff (by positivity) (by positivity), hk, pow_add]
    ring

lemma floor_nat_div (m n : ℕ) (hn : 0 < n) :
    ⌊(m : ℚ) / ((n : ℕ) : ℚ)⌋ = ((m / n : ℕ) : ℤ) := by
  rw [Int.floor_eq_iff]
  constructor
  · rw [le_div_iff₀ (by positivity)]
    exact_mod_cast Nat.div_mul_le_self m n
  · rw [div_lt_iff₀ (by positivity)]
    have h2 : m < (m / n + 1) * n := by
      have hdm := Nat.div_add_mod m n
      have hml : m % n < n := Nat.mod_lt _ hn
      calc m = n * (m / n) + m % n := hdm.symm
        _ < n * (m / n) + n := by omega
        _ = (m / n + 1) * n := by ring
    exact_mod_cast h2

/-- Under the digit-count invariant the working-precision fractional digit
loop computes exactly the specification's exact-arithmetic digits and never
hits the out-of-range digit error. -/
lemma fracLoopFull_exact : ∀ (k prec a f : ℕ), a < 10 ^ f → f + 2 ≤ prec →
    ∃ r, fracLoopFull prec k ((a : ℚ) / ((10 ^ f : ℕ) : ℚ)) =
      .ok (fracDigitsSpec k ((a : ℚ) / ((10 ^ f : ℕ) : ℚ)), r) := by
  intro k
  induction k with
  | zero => intro prec a f _ _; exact ⟨(a : ℚ) / ((10 ^ f : ℕ) : ℚ), rfl⟩
  | succ k ih =>
    intro prec a f ha hf
    have hfpos : 0 < 10 ^ f := Nat.pos_pow_of_pos f (by norm_num)
    have hbound : 12 * a < 10 ^ prec := by
      have h1 : 12 * 10 ^ f ≤ 10 ^ prec := by
        calc 12 * 10 ^ f ≤ 100 * 10 ^ f := Nat.mul_le_mul_right _ (by norm_num)
          _ = 10 ^ (f + 2) := by rw [pow_add]; ring
          _ ≤ 10 ^ prec := Nat.pow_le_pow_right (by norm_num) hf
      omega
    have hx12 : ((a : ℚ) / ((10 ^ f : ℕ) : ℚ)) * 12 = ((12 * a : ℕ) : ℚ) / ((10 ^ f : ℕ) : ℚ) := by
      push_cast
      ring
    have hm_round : roundSig prec (((a : ℚ) / ((10 ^ f : ℕ) : ℚ)) * 12) =
        ((12 * a : ℕ) : ℚ) / ((10 ^ f : ℕ) : ℚ) := by
      rw [hx12]
      exact roundSig_eq_self prec (12 * a) f hbound
    have hfloor : ⌊((12 * a : ℕ) : ℚ) / ((10 ^ f : ℕ) : ℚ)⌋ = ((12 * a / 10 ^ f : ℕ) : ℤ) :=
      floor_nat_div _ _ hfpos
    have hDlt : 12 * a / 10 ^ f < 12 := by
      apply Nat.div_lt_of_lt_mul
      omega
    have hguard : ¬(((12 * a / 10 ^ f : ℕ) : ℤ) < 0 ∨ 12 ≤ ((12 * a / 10 ^ f : ℕ) : ℤ)) := by
      push_neg
      constructor
      · positivity
      · exact_mod_cast hDlt
    have hdm := Nat.div_add_mod (12 * a) (10 ^ f)
    have hmodlt : 12 * a % 10 ^ f < 10 ^ f := Nat.mod_lt _ hfpos
    have hsub : ((12 * a : ℕ) : ℚ) / ((10 ^ f : ℕ) : ℚ) - (((12 * a / 10 ^ f : ℕ) : ℤ) : ℚ) =
        ((12 * a % 10 ^ f : ℕ) : ℚ) / ((10 ^ f : ℕ) : ℚ) := by
      have hne : ((10 ^ f : ℕ) : ℚ) ≠ 0 := by positivity
      rw [Int.cast_natCast, eq_div_iff hne, sub_mul, div_mul_cancel₀ _ hne]
      have h1 : ((12 * a : ℕ) : ℚ) =
          (((12 * a / 10 ^ f) * 10 ^ f + 12 * a % 10 ^ f : ℕ) : ℚ) := by
        exact_mod_cast congrArg (fun t : ℕ => (t : ℚ))
          (show (12 * a : ℕ) = (12 * a / 10 ^ f) * 10 ^ f + 12 * a % 10 ^ f by
            rw [Nat.mul_comm (12 * a / 10 ^ f) (10 ^ f)]
            exact hdm.symm)
      push_cast at h1 ⊢
      linarith
    have hsub_round : roundSig prec (((12 * a : ℕ) : ℚ) / ((10 ^ f : ℕ) : ℚ) -
        (((12 * a / 10 ^ f : ℕ) : ℤ) : ℚ)) =
        ((12 * a % 10 ^ f : ℕ) : ℚ) / ((10 ^ f : ℕ) : ℚ) := by
      rw [hsub]
      exact roundSig_eq_self prec _ f (by omega)
    have hcode : fracLoopFull prec (k + 1) ((a : ℚ) / ((10 ^ f : ℕ) : ℚ)) =
        (let m := roundSig prec (((a : ℚ) / ((10 ^ f : ℕ) : ℚ)) * 12)
         let d : ℤ := ⌊m⌋
         if d < 0 ∨ 12 ≤ d then .error .indexError
         else
           let c := digChar d.toNat
           let fr' := roundSig prec (m - (d : ℚ))
           if fr' = 0 then .ok (String.singleton c, 0)
           else do
             let (rest, r) ← fracLoopFull prec k fr'
             .ok (String.singleton c ++ rest, r)) := rfl
    have hspec : fracDigitsSpec (k + 1) ((a : ℚ) / ((10 ^ f : ℕ) : ℚ)) =
        (let m := ((a : ℚ) / ((10 ^ f : ℕ) : ℚ)) * 12
         let d := ⌊m⌋
         let c := digChar d.toNat
         let fr' := m - (d : ℚ)
         if fr' = 0 then String.singleton c
         else String.singleton c ++ fracDigitsSpec k fr') := rfl
    rw [hcode, hspec]
    simp only [hx12]
    have hm2 : roundSig prec (((12 * a : ℕ) : ℚ) / ((10 ^ f : ℕ) : ℚ)) =
        ((12 * a : ℕ) : ℚ) / ((10 ^ f : ℕ) : ℚ) :=
      roundSig_eq_self prec (12 * a) f hbound
    have hm3 : roundSig prec (((12 * a % 10 ^ f : ℕ) : ℚ) / ((10 ^ f : ℕ) : ℚ)) =
        ((12 * a % 10 ^ f : ℕ) : ℚ) / ((10 ^ f : ℕ) : ℚ) := by
      apply roundSig_eq_self
      have : (10 : ℕ) ^ f ≤ 10 ^ prec := Nat.pow_le_pow_right (by norm_num) (by omega)
      omega
    simp only [hm2, hfloor, Int.toNat_natCast, if_neg hguard, hsub_round, hsub, hm3]
    by_cases hz : ((12 * a % 10 ^ f : ℕ) : ℚ) / ((10 ^ f : ℕ) : ℚ) = 0
    · rw [if_pos hz, if_pos hz]
      exact ⟨0, rfl⟩
    · rw [if_neg hz, if_neg hz]
      obtain ⟨r, hr⟩ := ih prec (12 * a % 10 ^ f) f hmodlt hf
      refine ⟨r, ?_⟩
      rw [hr]
      rfl

/-! ### Claim C5: the fractional digit loop -/

/-- Counterexample for claim C5 as stated: two non-integer values with
nonzero fractional part and precision 6 > 0 for which the program does not
emit `<integer-part>.<fractional-digits>`.  For
`Decimal('0.99999999999999999999999999999')` (29 nines) the context-rounded
`abs` turns the value into exactly 1 and `"1"` is returned — no point, no
digits, and an integer part that is not the value's integer part.  For
`Decimal('0.9999999999999999999999999999')` (28 nines, exact at working
precision) the first loop iteration rounds `frac * 12` up to exactly 12,
computes digit 12, and `_DOZENAL_DIGITS[12]` is an IndexError. -/
theorem c5_counterexample :
    decimal_to_dozenal_decimal ((10 ^ 29 - 1 : ℚ) / 10 ^ 29) 6 = .ok "1" ∧
    decimal_to_dozenal_decimal ((10 ^ 28 - 1 : ℚ) / 10 ^ 28) 6 = .error .indexError := by
  constructor
  · set_option maxRecDepth 100000 in with_unfolding_all decide
  · set_option maxRecDepth 100000 in with_unfolding_all decide

/-- Claim C5 (amended): for a non-integer `Decimal` value that is exactly
representable at the working precision (so the context-rounded `abs` leaves
it unchanged: integer part and fractional digits together fit in
`max(28, 3p)` significant decimal digits, with at most `max(28, 3p) - 2`
fractional decimal digits), the rendering is `<sign><integer part>.<digits>`
where the digits are produced by the exact repeated-multiply-by-12 process
of the specification, truncated at `p` digits with no rounding; when
`p ≤ 0` or the fractional part is zero, only the integer part is emitted. -/
theorem c5_amended (p : ℤ) (I a f : ℕ)
    (ha : a < 10 ^ f)
    (hf2 : f + 2 ≤ max 28 (3 * p).toNat)
    (hIa : I * 10 ^ f + a < 10 ^ max 28 (3 * p).toNat) :
    (0 < p → a ≠ 0 →
      decimal_to_dozenal_decimal ((I : ℚ) + (a : ℚ) / ((10 ^ f : ℕ) : ℚ)) p =
        .ok (int_to_base12 I ++ "." ++
          fracDigitsSpec p.toNat ((a : ℚ) / ((10 ^ f : ℕ) : ℚ))) ∧
      decimal_to_dozenal_decimal (-((I : ℚ) + (a : ℚ) / ((10 ^ f : ℕ) : ℚ))) p =
        .ok ("-" ++ int_to_base12 I ++ "." ++
          fracDigitsSpec p.toNat ((a : ℚ) / ((10 ^ f : ℕ) : ℚ)))) ∧
    ((p ≤ 0 ∨ a = 0) →
      decimal_to_dozenal_decimal ((I : ℚ) + (a : ℚ) / ((10 ^ f : ℕ) : ℚ)) p =
        .ok (int_to_base12 I)) := by
  set prec : ℕ := max 28 (3 * p).toNat with hprec
  set q : ℚ := (a : ℚ) / ((10 ^ f : ℕ) : ℚ) with hq
  set x : ℚ := (I : ℚ) + q with hx
  have hfq : (10 : ℕ) ^ f ≤ 10 ^ prec := Nat.pow_le_pow_right (by norm_num) (by omega)
  have h10f : 0 < (10 : ℕ) ^ f := Nat.pos_pow_of_pos f (by norm_num)
  have hI : I < 10 ^ prec := by
    have h1 : I ≤ I * 10 ^ f := Nat.le_mul_of_pos_right I h10f
    omega
  have hq0 : 0 ≤ q := by rw [hq]; positivity
  have hq1 : q < 1 := by
    rw [hq, div_lt_one (by positivity)]
    exact_mod_cast ha
  have hx0 : 0 ≤ x := by rw [hx]; positivity
  have habsx : |x| = x := abs_of_nonneg hx0
  have hfloorx : ⌊x⌋ = (I : ℤ) := by
    rw [Int.floor_eq_iff]
    constructor
    · rw [hx]; push_cast; linarith
    · rw [hx]; push_cast; linarith
  have htn : (⌊x⌋).toNat = I := by rw [hfloorx]; exact Int.toNat_natCast I
  have hxval : x = ((I * 10 ^ f + a : ℕ) : ℚ) / ((10 ^ f : ℕ) : ℚ) := by
    rw [hx, hq]
    push_cast
    field_simp
  have hdec : roundSig prec x = x := by
    rw [hxval]
    exact roundSig_eq_self prec _ f hIa
  have hxq : x - ((I : ℕ) : ℚ) = q := by rw [hx]; ring
  have hfr : roundSig prec (x - ((I : ℕ) : ℚ)) = q := by
    rw [hxq, hq]
    exact roundSig_eq_self prec a f (by omega)
  have hqz : q = 0 ↔ a = 0 := by
    rw [hq, div_eq_zero_iff]
    constructor
    · rintro (h | h)
      · exact_mod_cast h
      · exact absurd h (by positivity)
    · intro h; left; exact_mod_cast h
  have hren : ∀ z : ℚ, dozRender p z =
      (if 10 ^ prec ≤ (⌊roundSig prec |z|⌋).toNat then .error .invalidOperation
       else if p ≤ 0 ∨
           roundSig prec (roundSig prec |z| - (((⌊roundSig prec |z|⌋).toNat : ℕ) : ℚ)) = 0 then
         .ok ((if z < 0 then "-" else "") ++ int_to_base12 (⌊roundSig prec |z|⌋).toNat)
       else do
         let (ds, _) ← fracLoopFull prec p.toNat
             (roundSig prec (roundSig prec |z| - (((⌊roundSig prec |z|⌋).toNat : ℕ) : ℚ)))
         .ok ((if z < 0 then "-" else "") ++
           int_to_base12 (⌊roundSig prec |z|⌋).toNat ++ "." ++ ds)) :=
    fun z => rfl
  constructor
  · intro hp ha0
    have hqpos : 0 < q := lt_of_le_of_ne hq0 (fun h => ha0 (hqz.mp h.symm))
    have hnz : ¬(p ≤ 0 ∨ q = 0) := by
      push_neg
      exact ⟨hp, fun h => ha0 (hqz.mp h)⟩
    obtain ⟨r, hloop⟩ := fracLoopFull_exact p.toNat prec a f ha hf2
    constructor
    · show dozRender p x = _
      rw [hren x, habsx, hdec, htn, hfr]
      rw [if_neg (not_le.mpr hI), if_neg hnz, if_neg (not_lt.mpr hx0)]
      rw [hq] at *
      rw [hloop]
      rfl
    · have hxpos : 0 < x := by rw [hx]; positivity
      have habsy : |(-x)| = x := by rw [abs_neg, habsx]
      show dozRender p (-x) = _
      rw [hren (-x), habsy, hdec, htn, hfr]
      rw [if_neg (not_le.mpr hI), if_neg hnz, if_pos (neg_lt_zero.mpr hxpos)]
      rw [hq] at *
      rw [hloop]
      rfl
  · intro hpa
    have hdisj : p ≤ 0 ∨ q = 0 := hpa.imp id hqz.mpr
    show dozRender p x = _
    rw [hren x, habsx, hdec, htn, hfr]
    rw [if_neg (not_le.mpr hI), if_pos hdisj, if_neg (not_lt.mpr hx0)]
    rfl

/-- Witness for C5 at the value 1.5 (one integer digit, fractional part
5/10) and precision 6. -/
theorem c5_amended_witness :
    decimal_to_dozenal_decimal ((1 : ℚ) + (5 : ℚ) / ((10 ^ 1 : ℕ) : ℚ)) 6 =
      .ok (int_to_base12 1 ++ "." ++
        fracDigitsSpec (6 : ℤ).toNat ((5 : ℚ) / ((10 ^ 1 : ℕ) : ℚ))) ∧
    decimal_to_dozenal_decimal (-((1 : ℚ) + (5 : ℚ) / ((10 ^ 1 : ℕ) : ℚ))) 6 =
      .ok ("-" ++ int_to_base12 1 ++ "." ++
        fracDigitsSpec (6 : ℤ).toNat ((5 : ℚ) / ((10 ^ 1 : ℕ) : ℚ))) :=
  (c5_amended 6 1 5 1 (by norm_num) (by norm_num) (by norm_num)).1
    (by norm_num) (by norm_num)

/-! ### Claim C8: idempotence of re-rendering at higher precision -/

/-- Extending the fuel of a digit loop run that ended with remainder zero
changes nothing. -/
lemma fracLoopFull_extend : ∀ (k k' prec : ℕ) (x : ℚ) (s : String), x ≠ 0 → k ≤ k' →
    fracLoopFull prec k x = .ok (s, 0) → fracLoopFull prec k' x = .ok (s, 0) := by
  intro k
  induction k with
  | zero =>
    intro k' prec x s hx _ h0
    simp only [fracLoopFull] at h0
    exact absurd (congrArg (fun t : String × ℚ => t.2) (Except.ok.inj h0)) hx
  | succ k ih =>
    intro k' prec x s hx hk h0
    obtain ⟨k'', rfl⟩ : ∃ k'', k' = k'' + 1 := ⟨k' - 1, by omega⟩
    have hk2 : k ≤ k'' := by omega
    simp only [fracLoopFull] at h0 ⊢
    by_cases hguard : (⌊roundSig prec (x * 12)⌋ < 0 ∨ 12 ≤ ⌊roundSig prec (x * 12)⌋)
    · rw [if_pos hguard] at h0
      exact absurd h0 (by simp)
    · rw [if_neg hguard] at h0 ⊢
      by_cases hz : roundSig prec (roundSig prec (x * 12) - (⌊roundSig prec (x * 12)⌋ : ℚ)) = 0
      · rw [if_pos hz] at h0 ⊢
        exact h0
      · rw [if_neg hz] at h0 ⊢
        cases hrec : fracLoopFull prec k
            (roundSig prec (roundSig prec (x * 12) - (⌊roundSig prec (x * 12)⌋ : ℚ))) with
        | error e =>
          rw [hrec, doz_bind_error] at h0
          exact absurd h0 (by simp)
        | ok pr =>
          rw [hrec] at h0
          obtain ⟨rest, r⟩ := pr
          rw [doz_bind_ok] at h0
          have hinj : (String.singleton (digChar (⌊roundSig prec (x * 12)⌋.toNat)) ++ rest, r) =
              ((s, 0) : String × ℚ) := Except.ok.inj h0
          have hr0 : r = 0 := congrArg (fun t : String × ℚ => t.2) hinj
          have hs : s = String.singleton (digChar (⌊roundSig prec (x * 12)⌋.toNat)) ++ rest :=
            (congrArg (fun t : String × ℚ => t.1) hinj).symm
          have hrec' := ih k'' prec _ rest hz hk2 (by rw [hrec, hr0])
          rw [hrec', doz_bind_ok, hs]

/-- Counterexample for claim C8 as stated: the dozenal string `"0.1"` has
value 1/12, whose base-12 expansion terminates within p = 1 digit, and
p' = 20 ≥ 1; but re-rendering the decoded value at precision 20 yields
`"0.0EEEEEEEEEEEEEEEEEEE"` — different digits, with spurious nonzero
trailing digits — while precision 1 yields `"0.1"`.  The decoded value is
only a 28-significant-digit approximation of 1/12, and raising the
precision changes the working precision from 28 to 60, so the loop no
longer rounds the error away. -/
theorem c8_counterexample :
    (dozenal_to_decimal 28 "0.1").bind (fun v => decimal_to_dozenal_decimal v 20) =
      .ok "0.0EEEEEEEEEEEEEEEEEEE" ∧
    (dozenal_to_decimal 28 "0.1").bind (fun v => decimal_to_dozenal_decimal v 1) =
      .ok "0.1" ∧
    ("0.0EEEEEEEEEEEEEEEEEEE" : String) ≠ "0.1" := by
  refine ⟨?_, ?_, by decide⟩
  · set_option maxRecDepth 100000 in with_unfolding_all decide
  · set_option maxRecDepth 100000 in with_unfolding_all decide

/-- Claim C8 (amended): rendering the same value at a higher precision `p'`
emits exactly the digits of precision `p` — provided both precisions share
the same working precision `max(28, 3p) = max(28, 3p')` and the digit loop
at precision `p` terminates with remainder exactly zero within its `p`
iterations.  (The counterexample shows the claim fails when the working
precision changes.) -/
theorem c8_amended (x : ℚ) (p p' : ℤ) (s : String)
    (hpp : p ≤ p')
    (hprec : max 28 (3 * p).toNat = max 28 (3 * p').toNat)
    (hloop : fracLoopFull (max 28 (3 * p).toNat) p.toNat
        (roundSig (max 28 (3 * p).toNat)
          (roundSig (max 28 (3 * p).toNat) |x| -
            (((⌊roundSig (max 28 (3 * p).toNat) |x|⌋).toNat : ℕ) : ℚ))) = .ok (s, 0)) :
    decimal_to_dozenal_decimal x p' = decimal_to_dozenal_decimal x p := by
  set prec : ℕ := max 28 (3 * p).toNat with hprecdef
  have hren : ∀ (pp : ℤ) (z : ℚ), dozRender pp z =
      (if 10 ^ (max 28 (3 * pp).toNat) ≤ (⌊roundSig (max 28 (3 * pp).toNat) |z|⌋).toNat then
         .error .invalidOperation
       else if pp ≤ 0 ∨ roundSig (max 28 (3 * pp).toNat)
           (roundSig (max 28 (3 * pp).toNat) |z| -
             (((⌊roundSig (max 28 (3 * pp).toNat) |z|⌋).toNat : ℕ) : ℚ)) = 0 then
         .ok ((if z < 0 then "-" else "") ++
           int_to_base12 (⌊roundSig (max 28 (3 * pp).toNat) |z|⌋).toNat)
       else do
         let (ds, _) ← fracLoopFull (max 28 (3 * pp).toNat) pp.toNat
             (roundSig (max 28 (3 * pp).toNat)
               (roundSig (max 28 (3 * pp).toNat) |z| -
                 (((⌊roundSig (max 28 (3 * pp).toNat) |z|⌋).toNat : ℕ) : ℚ)))
         .ok ((if z < 0 then "-" else "") ++
           int_to_base12 (⌊roundSig (max 28 (3 * pp).toNat) |z|⌋).toNat ++ "." ++ ds)) :=
    fun pp z => rfl
  show dozRender p' x = dozRender p x
  rw [hren p', hren p, ← hprec]
  by_cases hguard : 10 ^ prec ≤ (⌊roundSig prec |x|⌋).toNat
  · rw [if_pos hguard, if_pos hguard]
  · rw [if_neg hguard, if_neg hguard]
    by_cases hfz : roundSig prec
        (roundSig prec |x| - (((⌊roundSig prec |x|⌋).toNat : ℕ) : ℚ)) = 0
    · rw [if_pos (Or.inr hfz), if_pos (Or.inr hfz)]
    · have hppos : 0 < p := by
        by_contra hcon
        push_neg at hcon
        have h0 : p.toNat = 0 := Int.toNat_of_nonpos hcon
        rw [h0] at hloop
        simp only [fracLoopFull] at hloop
        exact hfz (congrArg (fun t : String × ℚ => t.2) (Except.ok.inj hloop))
      have hp'pos : 0 < p' := by omega
      rw [if_neg (show ¬(p' ≤ 0 ∨ _) by push_neg; exact ⟨hp'pos, hfz⟩),
        if_neg (show ¬(p ≤ 0 ∨ _) by push_neg; exact ⟨hppos, hfz⟩)]
      have hext := fracLoopFull_extend p.toNat p'.toNat prec _ s hfz
        (by omega) hloop
      rw [hloop, hext]

/-- Witness for C8: the value 0.5 rendered at precisions 1 and 9 (both use
working precision 28, and the loop ends with remainder zero after one
digit). -/
theorem c8_amended_witness :
    decimal_to_dozenal_decimal (1 / 2 : ℚ) 9 = decimal_to_dozenal_decimal (1 / 2 : ℚ) 1 :=
  c8_amended (1 / 2) 1 9 "6" (by norm_num) (by norm_num)
    (by with_unfolding_all decide)
